import Mathlib

/-!
Verification of the astro ephemeris/event-search engine against its
natural-language specification.  The Go sources (`src/astro.go` and the
unnamed second implementation `src/unnamed/part_000`) are shallowly embedded
over the real numbers: float64 arithmetic becomes real arithmetic,
`math.Sin`/`math.Cos`/`math.Sqrt`/`math.Atan2`/`math.Mod` become their exact
real counterparts, and the module-scoped mutable state of the Go code is
threaded explicitly (functions receive the globals they read and return the
globals they write).
-/

noncomputable section

namespace Astro

open Real

/-! ### Constants (from the `const` blocks of both files) -/

/-- `pipi = 2 * math.Pi` (named `twoPi` in part_000). -/
def pipi : ℝ := 2 * π

/-- `radian = math.Pi / 180`. -/
def radian : ℝ := π / 180

/-- `radsec = radian / 3600`. -/
def radsec : ℝ := radian / 3600

/-- `per = 1.0` (named `iVal` in part_000). -/
def per : ℝ := 1

/-- `npts = 12` (named `numPoints` in part_000), as a real for float contexts. -/
def nptsR : ℝ := 12

/-- `maxe = 0.999` — "Can't do hyperbolas". -/
def maxe : ℝ := 0.999

/-- `nevents = 100` (part_000 uses the literal `100`). -/
def nevents : ℕ := 100

/-- Event flag `dark = 1 << iota` (bit 12 of the astro.go const block). -/
def dark : ℕ := 4096

/-- Event flag `signif`. -/
def signif : ℕ := 8192

/-- Event flag `ptime`. -/
def ptime : ℕ := 16384

/-- Event flag `light`. -/
def light : ℕ := 32768

/-! ### Small numeric helpers -/

/-- Go's `math.Atan2 y x`, embedded as the principal argument of `x + i*y`.
Its range is `(-π, π]` and `atan2 0 0 = 0`, matching `math.Atan2` on
non-negative zeros. -/
def atan2 (y x : ℝ) : ℝ := Complex.arg ⟨x, y⟩

/-- `pyth` from both files: `sqrt(1 - min(x*x, 1))`
(astro.go writes it as `x *= x; if x > 1 { x = 1 }; sqrt(1-x)`). -/
def pyth (x : ℝ) : ℝ := Real.sqrt (1 - min (x * x) 1)

/-- Go's `int(t)` conversion of a float64: truncation toward zero. -/
def itrunc (t : ℝ) : ℤ := if t < 0 then -⌊-t⌋ else ⌊t⌋

/-- Go's `math.Mod x y` for `y > 0`: the remainder `x - y*trunc(x/y)`,
whose sign follows `x`. -/
def goMod (x y : ℝ) : ℝ := x - y * (itrunc (x / y) : ℝ)

/-! ### The hour-angle normalizers (claim C7)

`pinorm` is astro.go's loop-based normalizer; `piNorm` is part_000's
`math.Mod`-based one.  They are genuinely different functions. -/

/-- First loop of astro.go's `pinorm`: `for a < -math.Pi { a += pipi }`. -/
def pinormUp (a : ℝ) : ℝ :=
if h : a < -π then pinormUp (a + pipi) else a
termination_by ⌈(-π - a) / pipi⌉₊
decreasing_by
have hpi : (0:ℝ) < pipi := by
  have := Real.pi_pos
  simp only [pipi]
  linarith
have hx : 0 < (-π - a) / pipi := by
  apply div_pos _ hpi
  linarith
have hstep : (-π - (a + pipi)) / pipi = (-π - a) / pipi - 1 := by
  field_simp
  ring
have h1 : (⌈(-π - (a + pipi)) / pipi⌉₊ : ℝ) < (-π - a) / pipi := by
  rw [hstep]
  rcases le_or_lt 1 ((-π - a) / pipi) with h1x | h1x
  · have h0 : (0:ℝ) ≤ (-π - a) / pipi - 1 := by linarith
    have := Nat.ceil_lt_add_one h0
    linarith
  · have h0 : (-π - a) / pipi - 1 ≤ 0 := by linarith
    have : ⌈(-π - a) / pipi - 1⌉₊ = 0 := Nat.ceil_eq_zero.mpr h0
    rw [this]
    exact_mod_cast hx
exact Nat.lt_ceil.mpr h1

/-- Second loop of astro.go's `pinorm`: `for a > math.Pi { a -= pipi }`. -/
def pinormDown (a : ℝ) : ℝ :=
if h : π < a then pinormDown (a - pipi) else a
termination_by ⌈(a - π) / pipi⌉₊
decreasing_by
have hpi : (0:ℝ) < pipi := by
  have := Real.pi_pos
  simp only [pipi]
  linarith
have hx : 0 < (a - π) / pipi := by
  apply div_pos _ hpi
  linarith
have hstep : (a - pipi - π) / pipi = (a - π) / pipi - 1 := by
  field_simp
  ring
have h1 : (⌈(a - pipi - π) / pipi⌉₊ : ℝ) < (a - π) / pipi := by
  rw [hstep]
  rcases le_or_lt 1 ((a - π) / pipi) with h1x | h1x
  · have h0 : (0:ℝ) ≤ (a - π) / pipi - 1 := by linarith
    have := Nat.ceil_lt_add_one h0
    linarith
  · have h0 : (a - π) / pipi - 1 ≤ 0 := by linarith
    have : ⌈(a - π) / pipi - 1⌉₊ = 0 := Nat.ceil_eq_zero.mpr h0
    rw [this]
    exact_mod_cast hx
exact Nat.lt_ceil.mpr h1

/-- astro.go's `pinorm`: the two loops in sequence. -/
def pinorm (a : ℝ) : ℝ := pinormDown (pinormUp a)

/-- part_000's `piNorm(a) = math.Mod(a+math.Pi, 2*math.Pi) - math.Pi`. -/
def piNorm (a : ℝ) : ℝ := goMod (a + π) (2 * π) - π

/-! #### Range lemmas for the normalizers -/

lemma pipi_pos : (0:ℝ) < pipi := by
  have := Real.pi_pos
  simp only [pipi]
  linarith

lemma pinormUp_mem (a : ℝ) : -π ≤ pinormUp a := by
  induction a using pinormUp.induct with
  | case1 a h ih =>
    rw [pinormUp, dif_pos h]
    exact ih
  | case2 a h =>
    rw [pinormUp, dif_neg h]
    push_neg at h
    exact h

lemma pinormUp_le (a : ℝ) (ha : a ≤ π) : pinormUp a ≤ π := by
  induction a using pinormUp.induct with
  | case1 a h ih =>
    rw [pinormUp, dif_pos h]
    apply ih
    have := Real.pi_pos
    simp only [pipi]
    linarith
  | case2 a h =>
    rw [pinormUp, dif_neg h]
    exact ha

lemma pinormDown_le (a : ℝ) : pinormDown a ≤ π := by
  induction a using pinormDown.induct with
  | case1 a h ih =>
    rw [pinormDown, dif_pos h]
    exact ih
  | case2 a h =>
    rw [pinormDown, dif_neg h]
    push_neg at h
    exact h

lemma pinormDown_ge (a : ℝ) (ha : -π ≤ a) : -π ≤ pinormDown a := by
  induction a using pinormDown.induct with
  | case1 a h ih =>
    rw [pinormDown, dif_pos h]
    apply ih
    have := Real.pi_pos
    simp only [pipi]
    linarith
  | case2 a h =>
    rw [pinormDown, dif_neg h]
    exact ha

lemma pinormDown_id (a : ℝ) (ha : a ≤ π) : pinormDown a = a := by
  rw [pinormDown, dif_neg (by push_neg; exact ha)]

lemma pinormUp_id (a : ℝ) (ha : -π ≤ a) : pinormUp a = a := by
  rw [pinormUp, dif_neg (by push_neg; exact ha)]

/-- astro.go's `pinorm` always lands in the closed interval `[-π, π]`. -/
lemma pinorm_mem (a : ℝ) : pinorm a ∈ Set.Icc (-π) π := by
  constructor
  · exact pinormDown_ge _ (pinormUp_mem a)
  · exact pinormDown_le _

/-- For `x ≥ 0`, `0 < y`: `goMod x y ∈ [0, y)`. -/
lemma goMod_nonneg_mem (x y : ℝ) (hx : 0 ≤ x) (hy : 0 < y) :
    0 ≤ goMod x y ∧ goMod x y < y := by
  have hq : 0 ≤ x / y := div_nonneg hx hy.le
  have ht : itrunc (x / y) = ⌊x / y⌋ := by
    rw [itrunc, if_neg (by push_neg; exact hq)]
  constructor
  · rw [goMod, ht]
    have h1 : (⌊x / y⌋ : ℝ) ≤ x / y := Int.floor_le _
    have h2 : y * (⌊x / y⌋ : ℝ) ≤ y * (x / y) := by
      exact mul_le_mul_of_nonneg_left h1 hy.le
    have h3 : y * (x / y) = x := by field_simp
    linarith
  · rw [goMod, ht]
    have h1 : x / y - 1 < (⌊x / y⌋ : ℝ) := Int.sub_one_lt_floor _
    have h2 : y * (x / y - 1) < y * (⌊x / y⌋ : ℝ) := by
      exact mul_lt_mul_of_pos_left h1 hy
    have h3 : y * (x / y) = x := by field_simp
    nlinarith

/-- For `x < 0`, `0 < y`: `goMod x y ∈ (-y, 0]`. -/
lemma goMod_neg_mem (x y : ℝ) (hx : x < 0) (hy : 0 < y) :
    -y < goMod x y ∧ goMod x y ≤ 0 := by
  have hq : x / y < 0 := div_neg_of_neg_of_pos hx hy
  have ht : itrunc (x / y) = -⌊-(x / y)⌋ := by
    rw [itrunc, if_pos hq]
  have hxy : y * (x / y) = x := by field_simp
  constructor
  · rw [goMod, ht]
    push_cast
    have h1 : -(x / y) - 1 < (⌊-(x / y)⌋ : ℝ) := Int.sub_one_lt_floor _
    have h2 : y * (-(x / y) - 1) < y * (⌊-(x / y)⌋ : ℝ) :=
      mul_lt_mul_of_pos_left h1 hy
    have h3 : y * (-(x / y) - 1) = -x - y := by
      rw [mul_sub, mul_neg, hxy]
      ring
    linarith
  · rw [goMod, ht]
    push_cast
    have h1 : (⌊-(x / y)⌋ : ℝ) ≤ -(x / y) := Int.floor_le _
    have h2 : y * (⌊-(x / y)⌋ : ℝ) ≤ y * -(x / y) :=
      mul_le_mul_of_nonneg_left h1 hy.le
    have h3 : y * -(x / y) = -x := by
      rw [mul_neg, hxy]
    linarith

/-- part_000's `piNorm` lands in `[-π, π)` for inputs `≥ -π`. -/
lemma piNorm_mem_of_ge (a : ℝ) (ha : -π ≤ a) : piNorm a ∈ Set.Ico (-π) π := by
  have h := goMod_nonneg_mem (a + π) (2 * π) (by linarith) (by have := Real.pi_pos; linarith)
  constructor
  · simp only [piNorm]
    linarith [h.1]
  · simp only [piNorm]
    linarith [h.2]

/-- part_000's `piNorm` lands in `(-3π, -π]` for inputs `< -π` —
strictly below the claimed `(-π, π]`. -/
lemma piNorm_mem_of_lt (a : ℝ) (ha : a < -π) : piNorm a ∈ Set.Ioc (-(3 * π)) (-π) := by
  have h := goMod_neg_mem (a + π) (2 * π) (by linarith) (by have := Real.pi_pos; linarith)
  constructor
  · simp only [piNorm]
    linarith [h.1]
  · simp only [piNorm]
    linarith [h.2]

/-! ### Claim C7 -/

/-- C7 (counterexample): the claim "the hour-angle normalizer returns a value
in `(-π, π]` for every finite input, in both implementations" is false at
concrete inputs: astro.go's `pinorm (-π) = -π ∉ (-π, π]`, and part_000's
`piNorm (-2π) = -2π ∉ (-π, π]`. -/
theorem pinorm_range_claim_false :
    pinorm (-π) = -π ∧ pinorm (-π) ∉ Set.Ioc (-π) π ∧
    piNorm (-(2 * π)) = -(2 * π) ∧ piNorm (-(2 * π)) ∉ Set.Ioc (-π) π := by
  have hpi := Real.pi_pos
  have h1 : pinorm (-π) = -π := by
    rw [pinorm, pinormUp_id _ (le_refl _), pinormDown_id _ (by linarith)]
  have h2 : piNorm (-(2 * π)) = -(2 * π) := by
    have harg : -(2 * π) + π = -π := by ring
    have hdiv : (-π) / (2 * π) = -(1 / 2 : ℝ) := by
      rw [div_eq_iff (by linarith)]
      ring
    have htr : itrunc ((-π) / (2 * π)) = 0 := by
      rw [itrunc, if_pos (by rw [hdiv]; norm_num)]
      rw [hdiv]
      norm_num
    rw [piNorm, harg, goMod, htr]
    push_cast
    ring
  refine ⟨h1, ?_, h2, ?_⟩
  · rw [h1]
    intro hmem
    exact absurd hmem.1 (lt_irrefl _)
  · rw [h2]
    intro hmem
    have := hmem.1
    linarith

/-- C7 (amended): astro.go's `pinorm` always returns a value in the closed
interval `[-π, π]`; part_000's `piNorm` returns a value in `[-π, π)` when its
input is at least `-π`, and a value in `(-3π, -π]` when its input is below
`-π`. -/
theorem pinorm_piNorm_range (a : ℝ) :
    pinorm a ∈ Set.Icc (-π) π ∧
    (-π ≤ a → piNorm a ∈ Set.Ico (-π) π) ∧
    (a < -π → piNorm a ∈ Set.Ioc (-(3 * π)) (-π)) :=
  ⟨pinorm_mem a, piNorm_mem_of_ge a, piNorm_mem_of_lt a⟩

/-- Witness for the amended C7 at the concrete input `0`. -/
theorem pinorm_piNorm_range_witness :
    pinorm 0 ∈ Set.Icc (-π) π ∧ piNorm 0 ∈ Set.Ico (-π) π :=
  ⟨(pinorm_piNorm_range 0).1,
   (pinorm_piNorm_range 0).2.1 (by have := Real.pi_pos; linarith)⟩

/-! ### The geocentric→topocentric stage `geo` (claim C8)

`geo` reads the module globals `gst, alpha, wlong, delta, erad, glat, hp,
nlat, semi` and writes `lha, decl2, semi2, ra, az, el`; the embedding passes
them explicitly.  The two implementations differ only in which hour-angle
normalizer wraps `ra`. -/

/-- The globals read by `geo`. -/
structure GeoIn where
  gst : ℝ
  alpha : ℝ
  wlong : ℝ
  delta : ℝ
  erad : ℝ
  glat : ℝ
  hp : ℝ
  nlat : ℝ
  semi : ℝ

/-- The globals written by `geo`. -/
structure GeoOut where
  lha : ℝ
  decl2 : ℝ
  semi2 : ℝ
  ra : ℝ
  az : ℝ
  el : ℝ

/-- `geo` from src/astro.go (wraps `ra` with `pinorm`). -/
def geoA (g : GeoIn) : GeoOut :=
  let lha0 := g.gst - g.alpha - g.wlong
  let decl := g.delta
  let sa := Real.cos decl * Real.sin lha0
  let ca := Real.cos decl * Real.cos lha0 - g.erad * Real.cos g.glat * Real.sin g.hp
  let sd := Real.sin decl - g.erad * Real.sin g.glat * Real.sin g.hp
  let lha := atan2 sa ca
  let decl2 := atan2 sd (Real.sqrt (sa * sa + ca * ca))
  let f := Real.sqrt (sa * sa + ca * ca + sd * sd)
  let semi2 := g.semi / f
  let ra := pinorm (g.gst - lha - g.wlong)
  let sel := Real.sin g.nlat * Real.sin decl2 + Real.cos g.nlat * Real.cos decl2 * Real.cos lha
  let el := atan2 sel (pyth sel)
  let saz := Real.sin lha * Real.cos decl2
  let caz := Real.cos g.nlat * Real.sin decl2 - Real.sin g.nlat * Real.cos decl2 * Real.cos lha
  let az := π + atan2 saz (-caz)
  ⟨lha, decl2, semi2, ra, az / radian, el / radian⟩

/-- `geo` from src/unnamed/part_000 (wraps `ra` with `piNorm`). -/
def geoP (g : GeoIn) : GeoOut :=
  let lha0 := g.gst - g.alpha - g.wlong
  let sa := Real.cos g.delta * Real.sin lha0
  let ca := Real.cos g.delta * Real.cos lha0 - g.erad * Real.cos g.glat * Real.sin g.hp
  let sd := Real.sin g.delta - g.erad * Real.sin g.glat * Real.sin g.hp
  let lha := atan2 sa ca
  let decl2 := atan2 sd (Real.sqrt (sa * sa + ca * ca))
  let f := Real.sqrt (sa * sa + ca * ca + sd * sd)
  let semi2 := g.semi / f
  let ra := piNorm (g.gst - lha - g.wlong)
  let sel := Real.sin g.nlat * Real.sin decl2 + Real.cos g.nlat * Real.cos decl2 * Real.cos lha
  let el := atan2 sel (pyth sel) / radian
  let saz := Real.sin lha * Real.cos decl2
  let caz := Real.cos g.nlat * Real.sin decl2 - Real.sin g.nlat * Real.cos decl2 * Real.cos lha
  let az := (π + atan2 saz (-caz)) / radian
  ⟨lha, decl2, semi2, ra, az, el⟩

lemma atan2_mem_Ioc (y x : ℝ) : atan2 y x ∈ Set.Ioc (-π) π :=
  Complex.arg_mem_Ioc _

lemma piNorm_mem_Ioo (a : ℝ) : piNorm a ∈ Set.Ioo (-(3 * π)) π := by
  have hpi := Real.pi_pos
  rcases le_or_lt (-π) a with h | h
  · have := piNorm_mem_of_ge a h
    exact ⟨by linarith [this.1], this.2⟩
  · have := piNorm_mem_of_lt a h
    exact ⟨this.1, by linarith [this.2]⟩

lemma pinorm_id (a : ℝ) (h1 : -π ≤ a) (h2 : a ≤ π) : pinorm a = a := by
  rw [pinorm, pinormUp_id a h1, pinormDown_id a h2]

lemma atan2_one_zero : atan2 1 0 = π / 2 := by
  have h : (⟨0, 1⟩ : ℂ) = Complex.I := rfl
  rw [atan2, h, Complex.arg_I]

/-! ### Claim C8 -/

/-- C8 (counterexample): the claim "the topocentric right ascension `ra`
stored in the position sample is wrapped into `[0, 2π)`" is false: with
`gst = wlong = delta = erad = glat = hp = nlat = semi = 0` and
`alpha = -π/2`, `geo` stores `ra = -π/2`, which is not in `[0, 2π)` (both
implementations give the same value here). -/
theorem geo_ra_claim_false :
    (geoA ⟨0, -(π / 2), 0, 0, 0, 0, 0, 0, 0⟩).ra = -(π / 2) ∧
    (geoA ⟨0, -(π / 2), 0, 0, 0, 0, 0, 0, 0⟩).ra ∉ Set.Ico 0 pipi := by
  have hpi := Real.pi_pos
  have hval : (geoA ⟨0, -(π / 2), 0, 0, 0, 0, 0, 0, 0⟩).ra = -(π / 2) := by
    show pinorm (0 - atan2 (Real.cos 0 * Real.sin (0 - -(π / 2) - 0))
      (Real.cos 0 * Real.cos (0 - -(π / 2) - 0) - 0 * Real.cos 0 * Real.sin 0) - 0)
      = -(π / 2)
    have ha : (0 : ℝ) - -(π / 2) - 0 = π / 2 := by ring
    rw [ha]
    rw [Real.cos_zero, Real.sin_pi_div_two, Real.cos_pi_div_two, Real.sin_zero]
    norm_num
    rw [atan2_one_zero]
    exact pinorm_id _ (by linarith) (by linarith)
  refine ⟨hval, ?_⟩
  rw [hval]
  intro hmem
  have := hmem.1
  linarith

/-- C8 (amended): `geo` wraps the stored right ascension with the hour-angle
normalizer, not into `[0, 2π)`: in astro.go `ra ∈ [-π, π]`, in part_000
`ra ∈ (-3π, π)`; the local hour angle, an `atan2` result, lies in `(-π, π]`
in both implementations. -/
theorem geo_ra_lha_range (g : GeoIn) :
    (geoA g).ra ∈ Set.Icc (-π) π ∧ (geoA g).lha ∈ Set.Ioc (-π) π ∧
    (geoP g).ra ∈ Set.Ioo (-(3 * π)) π ∧ (geoP g).lha ∈ Set.Ioc (-π) π := by
  refine ⟨?_, ?_, ?_, ?_⟩
  · exact pinorm_mem _
  · exact atan2_mem_Ioc _ _
  · exact piNorm_mem_Ioo _
  · exact atan2_mem_Ioc _ _

/-! ### The comet eccentricity clamp (claim C9) -/

/-- Comet orbital elements (`cometElem` in both files): epoch of perihelion,
perihelion distance, eccentricity, inclination, argument of perihelion,
longitude of the ascending node. -/
structure cometElem where
  t : ℝ
  q : ℝ
  e : ℝ
  i : ℝ
  w : ℝ
  o : ℝ

/-- The eccentricity `comet()` actually hands to the Kepler solver:
`ecc = elem.e; if ecc > maxe { ecc = maxe }` (astro.go; part_000 writes the
same clamp with the literal `0.999`). -/
def cometEccUsed (elem : cometElem) : ℝ :=
  if elem.e > maxe then maxe else elem.e

/-! ### Claim C9 -/

/-- C9: the eccentricity used by the comet model's Kepler solver is always at
most `0.999` (hence strictly below 1): any catalog eccentricity above `0.999`
is clamped down to `0.999`, and any other value is passed through unchanged,
so the solver's non-convergent regime `e ≥ 1` is unreachable from `comet()`. -/
theorem comet_ecc_clamped (elem : cometElem) :
    cometEccUsed elem ≤ maxe ∧ cometEccUsed elem < 1 ∧
    (maxe < elem.e → cometEccUsed elem = maxe) ∧
    (elem.e ≤ maxe → cometEccUsed elem = elem.e) := by
  rw [cometEccUsed]
  by_cases h : elem.e > maxe
  · rw [if_pos h]
    refine ⟨le_refl _, by rw [maxe]; norm_num, fun _ => rfl, fun hle => absurd h (not_lt.mpr hle)⟩
  · rw [if_neg h]
    push_neg at h
    refine ⟨h, lt_of_le_of_lt h (by rw [maxe]; norm_num), fun hlt => absurd hlt (not_lt.mpr h), fun _ => rfl⟩

/-- Witness for C9: a catalog eccentricity of `2` is clamped to `0.999`, and
the 153P/Ikeya–Zhang catalog value `0.990111` is passed through unchanged. -/
theorem comet_ecc_clamped_witness :
    cometEccUsed ⟨0, 0, 2, 0, 0, 0⟩ = maxe ∧
    cometEccUsed ⟨0, 0, 0.990111, 0, 0, 0⟩ = 0.990111 :=
  ⟨(comet_ecc_clamped ⟨0, 0, 2, 0, 0, 0⟩).2.2.1 (by rw [maxe]; norm_num),
   (comet_ecc_clamped ⟨0, 0, 0.990111, 0, 0, 0⟩).2.2.2 (by rw [maxe]; norm_num)⟩

/-! ### The event sink: `sunel` and `event` (claims C4, C5, C10)

`sunel` interpolates the Sun's elevation curve `osun.point[i].el`; the
embedding passes the elevation samples as a function `pts : ℕ → ℝ`.
`event` reads the global `events` buffer and appends to it; the embedding
threads the buffer and returns the optional error alongside it. -/

/-- The `evt` record: message, fractional-sample time, flag bitset. -/
structure evt where
  s : String
  tim : ℝ
  flag : ℕ

/-- `sunel` from both files:
`i := int(t); if i < 0 || i > npts { return -90 }` and otherwise linear
interpolation between `osun.point[i].el` and `osun.point[i+1].el`. -/
def sunel (pts : ℕ → ℝ) (t : ℝ) : ℝ :=
  if itrunc t < 0 ∨ 12 < itrunc t then -90
  else
    let i := (itrunc t).toNat
    pts i + (t - (i : ℝ)) * (pts (i + 1) - pts i)

/-- The indices of `osun.point` that `sunel` reads, from its control flow:
none on the early `-90` return, else `int(t)` and `int(t)+1`. -/
def sunelReads (t : ℝ) : List ℤ :=
  if itrunc t < 0 ∨ 12 < itrunc t then []
  else [itrunc t, itrunc t + 1]

/-- `event` from both files.  Result: the optional error (`nil` = `none`)
and the events buffer after the call. -/
def event (pts : ℕ → ℝ) (events : List evt) (e : evt) : Option String × List evt :=
  if e.flag &&& dark > 0 ∧ sunel pts e.tim > -12 then (none, events)
  else if e.flag &&& light > 0 ∧ sunel pts e.tim < 0 then (none, events)
  else if events.length ≥ nevents then (some ("too many events"), events)
  else (none, events ++ [e])

/-- Any sequence of `event` calls starting from the empty buffer. -/
def runEvents (pts : ℕ → ℝ) (es : List evt) : List evt :=
  es.foldl (fun acc e => (event pts acc e).2) []

/-- An `event` submission that the daylight/darkness gate drops. -/
def gated (pts : ℕ → ℝ) (e : evt) : Prop :=
  (e.flag &&& dark > 0 ∧ sunel pts e.tim > -12) ∨
  (e.flag &&& light > 0 ∧ sunel pts e.tim < 0)

lemma event_gated_eq (pts : ℕ → ℝ) (es : List evt) (e : evt) (h : gated pts e) :
    event pts es e = (none, es) := by
  rcases h with h | h
  · rw [event, if_pos h]
  · rw [event]
    by_cases h1 : e.flag &&& dark > 0 ∧ sunel pts e.tim > -12
    · rw [if_pos h1]
    · rw [if_neg h1, if_pos h]

lemma event_length_le (pts : ℕ → ℝ) (es : List evt) (e : evt)
    (h : es.length ≤ nevents) : (event pts es e).2.length ≤ nevents := by
  rw [event]
  by_cases h1 : e.flag &&& dark > 0 ∧ sunel pts e.tim > -12
  · rw [if_pos h1]
    exact h
  · rw [if_neg h1]
    by_cases h2 : e.flag &&& light > 0 ∧ sunel pts e.tim < 0
    · rw [if_pos h2]
      exact h
    · rw [if_neg h2]
      by_cases h3 : es.length ≥ nevents
      · rw [if_pos h3]
        exact h
      · rw [if_neg h3]
        push_neg at h3
        simp only [List.length_append, List.length_cons, List.length_nil]
        omega

/-! ### Claim C4 -/

/-- C4: an event carrying the `dark` flag whose interpolated Sun elevation
exceeds `-12°` is dropped (`event` returns `nil` without appending), and an
event carrying the `light` flag whose interpolated Sun elevation is below
`0°` is dropped likewise. -/
theorem event_gating (pts : ℕ → ℝ) (es : List evt) (e : evt) :
    (e.flag &&& dark > 0 → sunel pts e.tim > -12 → event pts es e = (none, es)) ∧
    (e.flag &&& light > 0 → sunel pts e.tim < 0 → event pts es e = (none, es)) :=
  ⟨fun h1 h2 => event_gated_eq pts es e (Or.inl ⟨h1, h2⟩),
   fun h1 h2 => event_gated_eq pts es e (Or.inr ⟨h1, h2⟩)⟩

/-- Witness for C4: a `dark`-flagged event at time `0` over a constant `0°`
Sun-elevation curve (so `sunel = 0 > -12`) is dropped, and a `light`-flagged
event over a constant `-20°` curve (so `sunel = -20 < 0`) is dropped. -/
theorem event_gating_witness :
    event (fun _ => 0) [] ⟨"x", 0, dark⟩ = (none, []) ∧
    event (fun _ => -20) [] ⟨"x", 0, light⟩ = (none, []) := by
  have hs0 : sunel (fun _ => 0) 0 = 0 := by
    rw [sunel, if_neg]
    · norm_num
    · rw [itrunc, if_neg (by norm_num)]
      norm_num
  have hs1 : sunel (fun _ => -20) 0 = -20 := by
    rw [sunel, if_neg]
    · norm_num
    · rw [itrunc, if_neg (by norm_num)]
      norm_num
  constructor
  · refine (event_gating (fun _ => 0) [] ⟨"x", 0, dark⟩).1 (by decide) ?_
    show sunel (fun _ => 0) 0 > -12
    rw [hs0]
    norm_num
  · refine (event_gating (fun _ => -20) [] ⟨"x", 0, light⟩).2 (by decide) ?_
    show sunel (fun _ => -20) 0 < 0
    rw [hs1]
    norm_num

/-! ### Claim C5 -/

/-- C5: `event` returns the distinct error "too many events" exactly when a
non-gated event is submitted while the buffer already holds `nevents = 100`
entries; on that error the buffer is unchanged, and the buffer length never
exceeds 100 under any sequence of `event` calls starting from the empty
buffer. -/
theorem event_capacity (pts : ℕ → ℝ) (es : List evt) (e : evt)
    (h : es.length ≤ nevents) :
    ((event pts es e).1 = some ("too many events") ↔ ¬gated pts e ∧ es.length = nevents) ∧
    ((event pts es e).1 ≠ none → (event pts es e).2 = es) ∧
    (event pts es e).2.length ≤ nevents ∧
    (∀ l : List evt, (runEvents pts l).length ≤ nevents) := by
  refine ⟨?_, ?_, event_length_le pts es e h, ?_⟩
  · rw [event, gated]
    by_cases h1 : e.flag &&& dark > 0 ∧ sunel pts e.tim > -12
    · rw [if_pos h1]
      simp only [not_or]
      constructor
      · intro hc
        exact absurd hc (by simp)
      · intro hc
        exact absurd h1 hc.1.1
    · rw [if_neg h1]
      by_cases h2 : e.flag &&& light > 0 ∧ sunel pts e.tim < 0
      · rw [if_pos h2]
        simp only [not_or]
        constructor
        · intro hc
          exact absurd hc (by simp)
        · intro hc
          exact absurd h2 hc.1.2
      · rw [if_neg h2]
        by_cases h3 : es.length ≥ nevents
        · rw [if_pos h3]
          simp only [not_or]
          constructor
          · intro _
            exact ⟨⟨h1, h2⟩, le_antisymm h h3⟩
          · intro _
            trivial
        · rw [if_neg h3]
          push_neg at h3
          simp only [not_or]
          constructor
          · intro hc
            exact absurd hc (by simp)
          · intro hc
            omega
  · rw [event]
    by_cases h1 : e.flag &&& dark > 0 ∧ sunel pts e.tim > -12
    · rw [if_pos h1]
      intro hc
      exact absurd rfl hc
    · rw [if_neg h1]
      by_cases h2 : e.flag &&& light > 0 ∧ sunel pts e.tim < 0
      · rw [if_pos h2]
        intro hc
        exact absurd rfl hc
      · rw [if_neg h2]
        by_cases h3 : es.length ≥ nevents
        · rw [if_pos h3]
          intro _
          rfl
        · rw [if_neg h3]
          intro hc
          exact absurd rfl hc
  · intro l
    rw [runEvents]
    have hgen : ∀ (l : List evt) (acc : List evt), acc.length ≤ nevents →
        (l.foldl (fun acc e => (event pts acc e).2) acc).length ≤ nevents := by
      intro l
      induction l with
      | nil =>
        intro acc hacc
        exact hacc
      | cons hd tl ih =>
        intro acc hacc
        exact ih _ (event_length_le pts acc hd hacc)
    exact hgen l [] (by simp [nevents])

/-- Witness for C5 at a full buffer of 100 empty events and an unflagged
submission: `event` errors with "too many events". -/
theorem event_capacity_witness :
    (event (fun _ => 0) (List.replicate 100 ⟨"", 0, 0⟩) ⟨"", 0, 0⟩).1
      = some ("too many events") := by
  have h := (event_capacity (fun _ => 0) (List.replicate 100 ⟨"", 0, 0⟩) ⟨"", 0, 0⟩
    (by simp [nevents])).1
  rw [h]
  constructor
  · rw [gated]
    intro hc
    rcases hc with hc | hc
    · exact absurd hc.1 (by decide)
    · exact absurd hc.1 (by decide)
  · simp [nevents]

/-! ### Claim C10 -/

/-- C10: `sunel` is total and in-bounds: when `int(t) < 0` or `int(t) > 12`
it returns `-90` reading no sample (the result does not depend on the sample
array at all); otherwise it reads exactly the two indices `int(t)` and
`int(t)+1`, which lie within the 14-element array (`0 ≤ i` and `i+1 ≤ 13`);
consequently an out-of-window `light`-flagged event is always dropped. -/
theorem sunel_total (t : ℝ) :
    ((itrunc t < 0 ∨ 12 < itrunc t) →
      (∀ pts : ℕ → ℝ, sunel pts t = -90) ∧ sunelReads t = []) ∧
    (∀ j ∈ sunelReads t, 0 ≤ j ∧ j ≤ 13) ∧
    (¬(itrunc t < 0 ∨ 12 < itrunc t) →
      sunelReads t = [itrunc t, itrunc t + 1] ∧ 0 ≤ itrunc t ∧ itrunc t + 1 ≤ 13) ∧
    (∀ (pts : ℕ → ℝ) (es : List evt) (e : evt), e.flag &&& light > 0 →
      (itrunc e.tim < 0 ∨ 12 < itrunc e.tim) → event pts es e = (none, es)) := by
  refine ⟨?_, ?_, ?_, ?_⟩
  · intro h
    constructor
    · intro pts
      rw [sunel, if_pos h]
    · rw [sunelReads, if_pos h]
  · intro j hj
    rw [sunelReads] at hj
    by_cases h : itrunc t < 0 ∨ 12 < itrunc t
    · rw [if_pos h] at hj
      exact absurd hj (List.not_mem_nil j)
    · rw [if_neg h] at hj
      push_neg at h
      simp only [List.mem_cons, List.not_mem_nil, or_false] at hj
      rcases hj with hj | hj <;> omega
  · intro h
    rw [sunelReads, if_neg h]
    push_neg at h
    exact ⟨rfl, h.1, by omega⟩
  · intro pts es e hflag hout
    have hsun : sunel pts e.tim = -90 := by
      rw [sunel, if_pos hout]
    apply event_gated_eq
    exact Or.inr ⟨hflag, by rw [hsun]; norm_num⟩

/-- Witness for C10 at the out-of-window time `t = 20`: `sunel` returns `-90`
reading nothing, and a `light`-flagged event at that time is dropped. -/
theorem sunel_total_witness :
    sunel (fun _ => 50) 20 = -90 ∧ sunelReads 20 = [] ∧
    event (fun _ => 50) [] ⟨"x", 20, light⟩ = (none, []) := by
  have h20 : itrunc (20 : ℝ) = 20 := by
    rw [itrunc, if_neg (by norm_num)]
    norm_num
  have hout : itrunc (20 : ℝ) < 0 ∨ 12 < itrunc (20 : ℝ) := by
    rw [h20]
    norm_num
  have h := sunel_total 20
  exact ⟨(h.1 hout).1 _, (h.1 hout).2, h.2.2.2 _ [] ⟨"x", 20, light⟩ (by decide) hout⟩

/-! ### Threshold crossing: `rise` and `set` (claim C6)

Both files scan the 14 elevation samples `o.point[i].el` for `i = 1..13`;
the embedding passes the elevation sequence as `el : ℕ → ℝ`.  Since the Go
loop index satisfies `i ≥ 1`, `float64(i-1)` is embedded as `(i : ℝ) - 1`. -/

/-- The upward-crossing test of `rise`: `e1 <= el && e2 > el`. -/
def upCond (el : ℕ → ℝ) (e : ℝ) (i : ℕ) : Prop := el (i - 1) ≤ e ∧ e < el i

/-- The downward-crossing test of `set`: `e1 > el && e2 <= el`. -/
def dnCond (el : ℕ → ℝ) (e : ℝ) (i : ℕ) : Prop := e < el (i - 1) ∧ el i ≤ e

/-- The interpolated fractional index returned at a crossing:
`float64(i-1) + (el-e1)/(e2-e1)`. -/
def crossVal (el : ℕ → ℝ) (e : ℝ) (i : ℕ) : ℝ :=
  ((i : ℝ) - 1) + (e - el (i - 1)) / (el i - el (i - 1))

/-- The scan loop of `rise`, with explicit fuel (13 iterations from `i = 1`). -/
def riseLoop (el : ℕ → ℝ) (e : ℝ) : ℕ → ℕ → ℝ
  | 0, _ => -1
  | f + 1, i => if el (i - 1) ≤ e ∧ e < el i then crossVal el e i else riseLoop el e f (i + 1)

/-- The scan loop of `set`, with explicit fuel. -/
def setLoop (el : ℕ → ℝ) (e : ℝ) : ℕ → ℕ → ℝ
  | 0, _ => -1
  | f + 1, i => if e < el (i - 1) ∧ el i ≤ e then crossVal el e i else setLoop el e f (i + 1)

/-- `rise` from both files: scan `i = 1..13`, return the interpolated index at
the first upward crossing, else `-1`. -/
def rise (el : ℕ → ℝ) (e : ℝ) : ℝ := riseLoop el e 13 1

/-- `set` from both files: scan `i = 1..13`, return the interpolated index at
the first downward crossing, else `-1`. -/
def set (el : ℕ → ℝ) (e : ℝ) : ℝ := setLoop el e 13 1

lemma riseLoop_none (el : ℕ → ℝ) (e : ℝ) :
    ∀ (f i0 : ℕ), (∀ j, i0 ≤ j → j < i0 + f → ¬ upCond el e j) →
    riseLoop el e f i0 = -1 := by
  intro f
  induction f with
  | zero =>
    intro i0 _
    rfl
  | succ f ih =>
    intro i0 h
    rw [riseLoop, if_neg]
    · exact ih (i0 + 1) (fun j h1 h2 => h j (by omega) (by omega))
    · exact h i0 (le_refl _) (by omega)

lemma riseLoop_found (el : ℕ → ℝ) (e : ℝ) :
    ∀ (f i0 i : ℕ), i0 ≤ i → i < i0 + f → upCond el e i →
    (∀ j, i0 ≤ j → j < i → ¬ upCond el e j) →
    riseLoop el e f i0 = crossVal el e i := by
  intro f
  induction f with
  | zero =>
    intro i0 i h1 h2
    omega
  | succ f ih =>
    intro i0 i h1 h2 hc hfirst
    rcases eq_or_lt_of_le h1 with heq | hlt
    · subst heq
      rw [riseLoop, if_pos (show el (i0 - 1) ≤ e ∧ e < el i0 from hc)]
    · rw [riseLoop,
        if_neg (show ¬(el (i0 - 1) ≤ e ∧ e < el i0) from hfirst i0 (le_refl _) hlt)]
      exact ih (i0 + 1) i (by omega) (by omega) hc
        (fun j hj1 hj2 => hfirst j (by omega) hj2)

lemma setLoop_none (el : ℕ → ℝ) (e : ℝ) :
    ∀ (f i0 : ℕ), (∀ j, i0 ≤ j → j < i0 + f → ¬ dnCond el e j) →
    setLoop el e f i0 = -1 := by
  intro f
  induction f with
  | zero =>
    intro i0 _
    rfl
  | succ f ih =>
    intro i0 h
    rw [setLoop, if_neg]
    · exact ih (i0 + 1) (fun j h1 h2 => h j (by omega) (by omega))
    · exact h i0 (le_refl _) (by omega)

lemma setLoop_found (el : ℕ → ℝ) (e : ℝ) :
    ∀ (f i0 i : ℕ), i0 ≤ i → i < i0 + f → dnCond el e i →
    (∀ j, i0 ≤ j → j < i → ¬ dnCond el e j) →
    setLoop el e f i0 = crossVal el e i := by
  intro f
  induction f with
  | zero =>
    intro i0 i h1 h2
    omega
  | succ f ih =>
    intro i0 i h1 h2 hc hfirst
    rcases eq_or_lt_of_le h1 with heq | hlt
    · subst heq
      rw [setLoop, if_pos (show e < el (i0 - 1) ∧ el i0 ≤ e from hc)]
    · rw [setLoop,
        if_neg (show ¬(e < el (i0 - 1) ∧ el i0 ≤ e) from hfirst i0 (le_refl _) hlt)]
      exact ih (i0 + 1) i (by omega) (by omega) hc
        (fun j hj1 hj2 => hfirst j (by omega) hj2)

/-! ### Claim C6 -/

/-- C6: over the 14-sample elevation sequence, if the threshold `e` is crossed
upward at a unique index `i` (with `el[i-1] ≤ e < el[i]`) then `rise` returns
exactly the interpolated fractional index `(i-1) + (e - el[i-1]) / (el[i] -
el[i-1])`; symmetrically for `set` at the unique downward crossing; and when
no crossing of the respective kind exists, each returns `-1`. -/
theorem rise_set_linear (el : ℕ → ℝ) (e : ℝ) :
    ((∀ j, 1 ≤ j → j ≤ 13 → ¬ upCond el e j) → rise el e = -1) ∧
    (∀ i, 1 ≤ i → i ≤ 13 → upCond el e i →
      (∀ j, 1 ≤ j → j ≤ 13 → upCond el e j → j = i) →
      rise el e = crossVal el e i) ∧
    ((∀ j, 1 ≤ j → j ≤ 13 → ¬ dnCond el e j) → set el e = -1) ∧
    (∀ i, 1 ≤ i → i ≤ 13 → dnCond el e i →
      (∀ j, 1 ≤ j → j ≤ 13 → dnCond el e j → j = i) →
      set el e = crossVal el e i) := by
  refine ⟨?_, ?_, ?_, ?_⟩
  · intro h
    exact riseLoop_none el e 13 1 (fun j h1 h2 => h j h1 (by omega))
  · intro i h1 h2 hc huniq
    apply riseLoop_found el e 13 1 i h1 (by omega) hc
    intro j hj1 hj2 hcj
    have := huniq j hj1 (by omega) hcj
    omega
  · intro h
    exact setLoop_none el e 13 1 (fun j h1 h2 => h j h1 (by omega))
  · intro i h1 h2 hc huniq
    apply setLoop_found el e 13 1 i h1 (by omega) hc
    intro j hj1 hj2 hcj
    have := huniq j hj1 (by omega) hcj
    omega

/-- Integer version of the synthetic example sequence (evaluable by `decide`). -/
def elsExZ : ℕ → ℤ := fun i =>
  [-5, -4, -3, -1, 2, 3, 4, 5, 4, 3, 1, -2, -3, -4].getD i 0

/-- The synthetic elevation sequence of the claim's example: it crosses the
`0°` threshold exactly once upward (between samples 3 and 4, with
`el[3] = -1`, `el[4] = 2`) and once downward (between samples 10 and 11). -/
def elsEx : ℕ → ℝ := fun i => (elsExZ i : ℝ)

lemma upCond_elsEx_iff (j : ℕ) :
    upCond elsEx 0 j ↔ (elsExZ (j - 1) ≤ 0 ∧ 0 < elsExZ j) := by
  simp only [upCond, elsEx]
  constructor
  · intro h
    exact ⟨by exact_mod_cast h.1, by exact_mod_cast h.2⟩
  · intro h
    exact ⟨by exact_mod_cast h.1, by exact_mod_cast h.2⟩

lemma dnCond_elsEx_iff (j : ℕ) :
    dnCond elsEx 0 j ↔ (0 < elsExZ (j - 1) ∧ elsExZ j ≤ 0) := by
  simp only [dnCond, elsEx]
  constructor
  · intro h
    exact ⟨by exact_mod_cast h.1, by exact_mod_cast h.2⟩
  · intro h
    exact ⟨by exact_mod_cast h.1, by exact_mod_cast h.2⟩

/-- Witness for C6 at the claim's example: the rise index is
`3 + 1/3 = 10/3` and the set index is `10 + 1/3 = 31/3`. -/
theorem rise_set_linear_witness : rise elsEx 0 = 10 / 3 ∧ set elsEx 0 = 31 / 3 := by
  have h := rise_set_linear elsEx 0
  have hup : ∀ j, j < 14 → (elsExZ (j - 1) ≤ 0 ∧ 0 < elsExZ j) → j = 4 := by decide
  have hdn : ∀ j, j < 14 → (0 < elsExZ (j - 1) ∧ elsExZ j ≤ 0) → j = 11 := by decide
  have he3 : elsExZ 3 = -1 := by decide
  have he4 : elsExZ 4 = 2 := by decide
  have he10 : elsExZ 10 = 1 := by decide
  have he11 : elsExZ 11 = -2 := by decide
  constructor
  · have hr := h.2.1 4 (by omega) (by omega)
      ((upCond_elsEx_iff 4).mpr (by decide))
      (fun j hj1 hj2 hcj => hup j (by omega) ((upCond_elsEx_iff j).mp hcj))
    rw [hr, crossVal]
    show (4 : ℝ) - 1 + (0 - elsEx 3) / (elsEx 4 - elsEx 3) = 10 / 3
    rw [elsEx, elsEx, he3, he4]
    norm_num
  · have hs := h.2.2.2 11 (by omega) (by omega)
      ((dnCond_elsEx_iff 11).mpr (by decide))
      (fun j hj1 hj2 hcj => hdn j (by omega) ((dnCond_elsEx_iff j).mp hcj))
    rw [hs, crossVal]
    show (11 : ℝ) - 1 + (0 - elsEx 10) / (elsEx 11 - elsEx 10) = 31 / 3
    rw [elsEx, elsEx, he10, he11]
    norm_num

/-! ### Occultation refinement `occult` (claims C2, C3)

`occult` scans the two bodies' 14-sample separation curve (coarse pass), then
a quadratic-interpolant refinement at 1-minute steps (medium pass), then a
re-sampled quadratic refinement at 1/120-sample steps (fine pass), and
finally walks outward from the fine minimum to locate the five contact
times.  The embedding threads the globals explicitly:

* the bodies' sample arrays `o.point` become `o1p o2p : ℕ → obj1` (the Go
  arrays have 14 entries; every access below is at an index `< 14`);
* the true re-sampling of the fine pass (`setime(day + deld*(di+x)); o1.f();
  setobj(...)`) becomes an oracle `rs : ℝ → obj1 × obj1` mapping the
  fractional-day offset `di + x` to the freshly computed position samples of
  the two bodies;
* the global occultation record `occ` (whose `t1..t5` are reset to `-100` on
  entry while the stale `e1..e5` survive from earlier calls) is threaded as
  `occ0`, and the result record is returned;
* the two final contact-walking loops are `for {}` loops with no bound in the
  source; they get explicit fuel, and exhausting it yields the distinguished
  result `timeout` (the source would simply not return). -/

/-- Position sample record (`obj1`). -/
structure obj1 where
  ra : ℝ
  decl2 : ℝ
  semi2 : ℝ
  az : ℝ
  el : ℝ
  mag : ℝ

/-- Occultation record (`obj3`): five (time, elevation) contact breakpoints. -/
structure obj3 where
  t1 : ℝ
  e1 : ℝ
  t2 : ℝ
  e2 : ℝ
  t3 : ℝ
  e3 : ℝ
  t4 : ℝ
  e4 : ℝ
  t5 : ℝ
  e5 : ℝ

/-- Quadratic-interpolation scratch record (`occt`). -/
structure occt where
  act : obj1
  del0 : obj1
  del1 : obj1
  del2 : obj1

/-- `dist` from both files: angular separation of two samples, in arcseconds. -/
def dist (o1 o2 : obj1) : ℝ :=
  let d := Real.sin o1.decl2 * Real.sin o2.decl2 +
    Real.cos o1.decl2 * Real.cos o2.decl2 * Real.cos (o1.ra - o2.ra)
  |atan2 (pyth d) d| / radsec

/-- `set3pt` (named `pts` in part_000): Newton forward differences of three
consecutive samples.  Only the `ra`, `decl2`, `semi2`, `el` components are
written (and later read); the remaining fields of the scratch record are
never read before being written and are modeled as `0`. -/
def set3pt (p1 p2 p3 : obj1) : occt :=
  ⟨⟨0, 0, 0, 0, 0, 0⟩,
   ⟨p1.ra, p1.decl2, p1.semi2, 0, p1.el, 0⟩,
   ⟨pinorm (p2.ra - p1.ra), pinorm (p2.decl2 - p1.decl2),
     p2.semi2 - p1.semi2, 0, p2.el - p1.el, 0⟩,
   ⟨pinorm (p1.ra + p3.ra - 2 * p2.ra) / 2, pinorm (p1.decl2 + p3.decl2 - 2 * p2.decl2) / 2,
     (p1.semi2 + p3.semi2 - 2 * p2.semi2) / 2, 0, (p1.el + p3.el - 2 * p2.el) / 2, 0⟩⟩

/-- `setpt` (named `pt` in part_000): evaluate the quadratic interpolant at
`x`, writing the `act` record. -/
def setpt (o : occt) (x : ℝ) : occt :=
  ⟨⟨o.del0.ra + x * o.del1.ra + x * (x - 1) * o.del2.ra,
    o.del0.decl2 + x * o.del1.decl2 + x * (x - 1) * o.del2.decl2,
    o.del0.semi2 + x * o.del1.semi2 + x * (x - 1) * o.del2.semi2,
    o.act.az,
    o.del0.el + x * o.del1.el + x * (x - 1) * o.del2.el,
    o.act.mag⟩,
   o.del0, o.del1, o.del2⟩

/-- The interpolated sample at `x`. -/
def interp (o : occt) (x : ℝ) : obj1 := (setpt o x).act

/-- `n := 2880 * per / npts` — the medium pass's 1-minute step count. -/
def nMed : ℝ := 2880 * per / nptsR

/-- `dx := 2 / n` — the medium pass's step in sample units. -/
def dxMed : ℝ := 2 / nMed

/-- `dx /= 60` — the fine pass's step in sample units. -/
def dxFine : ℝ := dxMed / 60

/-- `int(n + 1)` — the medium loop's iteration count (241). -/
def medCount : ℕ := (⌊nMed + 1⌋).toNat

/-- The coarse scan `for i = 2; i < 14; i++ { ... if d2 <= d1 && d2 <= d3
break }`, with fuel equal to the remaining iteration count. -/
def coarseLoop (D : ℕ → ℝ) : ℕ → ℕ → Option ℕ
  | 0, _ => none
  | f + 1, i =>
    if D (i - 1) ≤ D (i - 2) ∧ D (i - 1) ≤ D i then some i else coarseLoop D f (i + 1)

/-- The shared shape of the medium and fine scans: at iteration `k` the
carried pair `(a, b)` holds the two previous separations, the new separation
is `s k`, and the loop breaks at the first `k ≥ 2` with `b ≤ a ∧ b ≤ s k`,
returning `(k, d2, d3)` as in the source. -/
def scanLoop (s : ℕ → ℝ) : ℕ → ℕ → ℝ → ℝ → Option (ℕ × ℝ × ℝ)
  | 0, _, _, _ => none
  | f + 1, k, a, b =>
    if 2 ≤ k ∧ b ≤ a ∧ b ≤ s k then some (k, b, s k) else scanLoop s f (k + 1) b (s k)

/-- The forward contact-walking loop (`i++`, `x += 1/120`): records fourth
and fifth contact by sign changes against `dd3 = |semi₁-semi₂|` and
`dd4 = semi₁+semi₂`, breaking when the separation exceeds `dd4`.  Returns the
updated record and the final `d2`, or `none` when the fuel runs out. -/
def contactF (oc1 oc2 : occt) (di dxF dd3 dd4 : ℝ) (i1 : ℤ) :
    ℕ → ℤ → ℝ → ℝ → obj3 → Option (obj3 × ℝ)
  | 0, _, _, _, _ => none
  | f + 1, i, x, d2, oc3 =>
    let a1 := interp oc1 x
    let a2 := interp oc2 x
    let d1 := d2
    let d2n := dist a1 a2
    if i = i1 then contactF oc1 oc2 di dxF dd3 dd4 i1 f (i + 1) (x + 1 / 120) d2n oc3
    else
      let oc3a := if d1 ≤ dd3 ∧ dd3 < d2n then
        ⟨oc3.t1, oc3.e1, oc3.t2, oc3.e2, oc3.t3, oc3.e3,
          di + ((i : ℝ) - 0.5) * dxF, a1.el, oc3.t5, oc3.e5⟩ else oc3
      if dd4 < d2n then
        some (if d1 ≤ dd4 then
          ⟨oc3a.t1, oc3a.e1, oc3a.t2, oc3a.e2, oc3a.t3, oc3a.e3, oc3a.t4, oc3a.e4,
            di + ((i : ℝ) - 0.5) * dxF, a1.el⟩ else oc3a, d2n)
      else contactF oc1 oc2 di dxF dd3 dd4 i1 f (i + 1) (x + 1 / 120) d2n oc3a

/-- The backward contact-walking loop (`i--`, `x -= 1/120`): records second
and first contact symmetrically. -/
def contactB (oc1 oc2 : occt) (di dxF dd3 dd4 : ℝ) (i1 : ℤ) :
    ℕ → ℤ → ℝ → ℝ → obj3 → Option (obj3 × ℝ)
  | 0, _, _, _, _ => none
  | f + 1, i, x, d2, oc3 =>
    let a1 := interp oc1 x
    let a2 := interp oc2 x
    let d1 := d2
    let d2n := dist a1 a2
    if i = i1 then contactB oc1 oc2 di dxF dd3 dd4 i1 f (i - 1) (x - 1 / 120) d2n oc3
    else
      let oc3a := if d1 ≤ dd3 ∧ dd3 < d2n then
        ⟨oc3.t1, oc3.e1, di + ((i : ℝ) - 0.5) * dxF, a1.el, oc3.t3, oc3.e3,
          oc3.t4, oc3.e4, oc3.t5, oc3.e5⟩ else oc3
      if dd4 < d2n then
        some (if d1 ≤ dd4 then
          ⟨di + ((i : ℝ) - 0.5) * dxF, a1.el, oc3a.t2, oc3a.e2, oc3a.t3, oc3a.e3,
            oc3a.t4, oc3a.e4, oc3a.t5, oc3a.e5⟩ else oc3a, d2n)
      else contactB oc1 oc2 di dxF dd3 dd4 i1 f (i - 1) (x - 1 / 120) d2n oc3a

/-- `occ.t1 = ... = occ.t5 = -100` on entry; the `e` components are the stale
globals. -/
def sentinel (occ0 : obj3) : obj3 :=
  ⟨-100, occ0.e1, -100, occ0.e2, -100, occ0.e3, -100, occ0.e4, -100, occ0.e5⟩

/-- The outcome of `occult`: the two distinct refinement-failure errors
(`errors.New("bad 1 ...")`, `errors.New("bad 2 ...")`), a normal `nil` return
carrying the final occultation record, or fuel exhaustion of a contact loop
(the source loops forever there). -/
inductive OccResult where
  | bad1 : OccResult
  | bad2 : OccResult
  | timeout : OccResult
  | done : obj3 → OccResult

/-- The coarse separation sequence `dist(o1.point[i], o2.point[i])`. -/
def Dseq (o1p o2p : ℕ → obj1) : ℕ → ℝ := fun i => dist (o1p i) (o2p i)

/-- The interpolation record built from the three samples bracketing the
coarse minimum at `i` (`i -= 2; set3pt(o, i, ...)` reads `point[i-2..i]`). -/
def ocAt (p : ℕ → obj1) (i : ℕ) : occt := set3pt (p (i - 2)) (p (i - 1)) (p i)

/-- The medium pass's interpolated separation at sub-step `k` (step `dxMed`). -/
def medSeqAt (o1p o2p : ℕ → obj1) (i : ℕ) : ℕ → ℝ := fun k =>
  dist (interp (ocAt o1p i) ((k : ℝ) * dxMed)) (interp (ocAt o2p i) ((k : ℝ) * dxMed))

/-- `di += x - 3*dx` after the medium break at sub-step `k`:
the base offset of the fine pass. -/
def diAt (i k : ℕ) : ℝ := ((i - 2 : ℕ) : ℝ) + ((k : ℝ) * dxMed - 3 * dxMed)

/-- The fine pass's re-sampled interpolation records: the bodies are
re-computed at offsets `di`, `di + 2*dx`, `di + 4*dx` and the differences
rebuilt. -/
def foAt (rs : ℝ → obj1 × obj1) (i k : ℕ) : occt × occt :=
  let t0 := diAt i k
  let q0 := rs t0
  let q1 := rs (t0 + 2 * dxMed)
  let q2 := rs (t0 + 4 * dxMed)
  (set3pt q0.1 q1.1 q2.1, set3pt q0.2 q1.2 q2.2)

/-- The fine pass's interpolated separation at sub-step `j` (step `1/120`). -/
def fdSeqAt (rs : ℝ → obj1 × obj1) (i k : ℕ) : ℕ → ℝ := fun j =>
  dist (interp (foAt rs i k).1 ((j : ℝ) / 120)) (interp (foAt rs i k).2 ((j : ℝ) / 120))

/-- The tail of `occult` after the fine pass broke at sub-step `j` with
minimum separation `d2f`: the `+0″` margin check, then the five-contact walk. -/
def occPhase3 (oc1 oc2 : occt) (di : ℝ) (occ0 : obj3) (fuel : ℕ) (j : ℕ) (d2f : ℝ) :
    OccResult :=
  let b1 := interp oc1 ((j : ℝ) / 120)
  let b2 := interp oc2 ((j : ℝ) / 120)
  if b1.semi2 + b2.semi2 < d2f then OccResult.done (sentinel occ0)
  else
    let occA : obj3 := ⟨-100, occ0.e1, -100, occ0.e2, di + ((j : ℝ) - 1) * dxFine, b1.el,
      -100, occ0.e4, -100, occ0.e5⟩
    let dd3 := |b1.semi2 - b2.semi2|
    let dd4 := b1.semi2 + b2.semi2
    let i1 : ℤ := (j : ℤ) - 1
    let x1 : ℝ := (j : ℝ) / 120 - 1 / 120
    match contactF oc1 oc2 di dxFine dd3 dd4 i1 fuel i1 x1 d2f occA with
    | none => OccResult.timeout
    | some (ocB, d2b) =>
      match contactB oc1 oc2 di dxFine dd3 dd4 i1 fuel i1 x1 d2b ocB with
      | none => OccResult.timeout
      | some (ocC, _) => OccResult.done ocC

/-- The tail of `occult` after the medium pass broke at sub-step `k` with
`(d2, d3) = (d2m, d3m)`: the `+50″` margin check, the re-sampled fine scan,
then `occPhase3`. -/
def occPhase2 (o1p o2p : ℕ → obj1) (rs : ℝ → obj1 × obj1) (occ0 : obj3) (fuel : ℕ)
    (i k : ℕ) (d2m d3m : ℝ) : OccResult :=
  if (interp (ocAt o1p i) ((k : ℝ) * dxMed)).semi2 +
      (interp (ocAt o2p i) ((k : ℝ) * dxMed)).semi2 + 50 < d2m then
    OccResult.done (sentinel occ0)
  else
    match scanLoop (fdSeqAt rs i k) 241 0 d2m d3m with
    | none => OccResult.bad2
    | some (j, d2f, _) =>
      occPhase3 (foAt rs i k).1 (foAt rs i k).2 (diAt i k) occ0 fuel j d2f

/-- `occult` from both files. -/
def occult (o1p o2p : ℕ → obj1) (rs : ℝ → obj1 × obj1) (occ0 : obj3) (fuel : ℕ) :
    OccResult :=
  match coarseLoop (Dseq o1p o2p) 12 2 with
  | none => OccResult.done (sentinel occ0)
  | some i =>
    match scanLoop (medSeqAt o1p o2p i) medCount 0 (Dseq o1p o2p (i - 1)) (Dseq o1p o2p i) with
    | none => OccResult.bad1
    | some (k, d2m, d3m) => occPhase2 o1p o2p rs occ0 fuel i k d2m d3m

/-! #### Specification-side predicates for the scans -/

/-- A 3-point local minimum at coarse index `i`: `d[i-1] ≥ d[i] ≤ d[i+1]`
written at the loop's index convention (`d2 ≤ d1 ∧ d2 ≤ d3`). -/
def coarseCond (D : ℕ → ℝ) (i : ℕ) : Prop := D (i - 1) ≤ D (i - 2) ∧ D (i - 1) ≤ D i

/-- `i` is the first coarse index (in `2..13`) at which a local minimum sits. -/
def firstCoarse (D : ℕ → ℝ) (i : ℕ) : Prop :=
  2 ≤ i ∧ i ≤ 13 ∧ coarseCond D i ∧ ∀ j, 2 ≤ j → j < i → ¬ coarseCond D j

/-- An interior 3-point minimum of a scan sequence at sub-step `k`. -/
def scanCond (s : ℕ → ℝ) (k : ℕ) : Prop := s (k - 1) ≤ s (k - 2) ∧ s (k - 1) ≤ s k

/-- The 241-step scan finds an interior 3-point minimum somewhere. -/
def scanFound (s : ℕ → ℝ) : Prop := ∃ k, 2 ≤ k ∧ k ≤ 240 ∧ scanCond s k

/-- `k` is the first sub-step at which the 241-step scan breaks. -/
def firstScan (s : ℕ → ℝ) (k : ℕ) : Prop :=
  2 ≤ k ∧ k ≤ 240 ∧ scanCond s k ∧ ∀ j, 2 ≤ j → j < k → ¬ scanCond s j

/-- The medium-pass minimum separation exceeds the sum of the two
interpolated semidiameters plus the 50″ margin. -/
def marginExceeded (o1p o2p : ℕ → obj1) (i k : ℕ) : Prop :=
  (interp (ocAt o1p i) ((k : ℝ) * dxMed)).semi2 +
    (interp (ocAt o2p i) ((k : ℝ) * dxMed)).semi2 + 50 < medSeqAt o1p o2p i (k - 1)

/-- The refinement-failure condition of claim C2: a coarse minimum exists,
but either the medium scan finds no interior minimum, or (the medium scan
broke within the margin and) the re-sampled fine scan finds none. -/
def errPred (o1p o2p : ℕ → obj1) (rs : ℝ → obj1 × obj1) : Prop :=
  ∃ i, firstCoarse (Dseq o1p o2p) i ∧
    (¬ scanFound (medSeqAt o1p o2p i) ∨
      ∃ k, firstScan (medSeqAt o1p o2p i) k ∧ ¬ marginExceeded o1p o2p i k ∧
        ¬ scanFound (fdSeqAt rs i k))

/-! #### Characterization of the scans -/

lemma coarseLoop_some (D : ℕ → ℝ) :
    ∀ (f i0 i : ℕ), coarseLoop D f i0 = some i ↔
      (i0 ≤ i ∧ i < i0 + f ∧ coarseCond D i ∧ ∀ j, i0 ≤ j → j < i → ¬ coarseCond D j) := by
  intro f
  induction f with
  | zero =>
    intro i0 i
    constructor
    · intro h
      exact Option.noConfusion h
    · rintro ⟨h1, h2, -, -⟩
      omega
  | succ f ih =>
    intro i0 i
    have he : coarseLoop D (f + 1) i0 =
        if D (i0 - 1) ≤ D (i0 - 2) ∧ D (i0 - 1) ≤ D i0 then some i0
        else coarseLoop D f (i0 + 1) := rfl
    rw [he]
    by_cases hc : coarseCond D i0
    · rw [if_pos (show D (i0 - 1) ≤ D (i0 - 2) ∧ D (i0 - 1) ≤ D i0 from hc)]
      constructor
      · intro h
        have hii : i0 = i := Option.some.inj h
        subst hii
        exact ⟨le_refl _, by omega, hc, fun j hj1 hj2 => absurd hj1 (by omega)⟩
      · rintro ⟨h1, h2, hci, hfirst⟩
        rcases eq_or_lt_of_le h1 with he2 | hlt
        · rw [he2]
        · exact absurd hc (hfirst i0 (le_refl _) hlt)
    · rw [if_neg (show ¬(D (i0 - 1) ≤ D (i0 - 2) ∧ D (i0 - 1) ≤ D i0) from hc), ih (i0 + 1) i]
      constructor
      · rintro ⟨h1, h2, hci, hfirst⟩
        refine ⟨by omega, by omega, hci, fun j hj1 hj2 => ?_⟩
        rcases eq_or_lt_of_le hj1 with hj | hj
        · rw [hj] at hc
          exact hc
        · exact hfirst j (by omega) hj2
      · rintro ⟨h1, h2, hci, hfirst⟩
        have hne : i0 ≠ i := by
          intro hcontra
          rw [hcontra] at hc
          exact hc hci
        exact ⟨by omega, by omega, hci, fun j hj1 hj2 => hfirst j (by omega) hj2⟩

lemma coarseLoop_none (D : ℕ → ℝ) :
    ∀ (f i0 : ℕ), coarseLoop D f i0 = none ↔
      ∀ j, i0 ≤ j → j < i0 + f → ¬ coarseCond D j := by
  intro f
  induction f with
  | zero =>
    intro i0
    constructor
    · intro _ j hj1 hj2
      omega
    · intro _
      rfl
  | succ f ih =>
    intro i0
    have he : coarseLoop D (f + 1) i0 =
        if D (i0 - 1) ≤ D (i0 - 2) ∧ D (i0 - 1) ≤ D i0 then some i0
        else coarseLoop D f (i0 + 1) := rfl
    rw [he]
    by_cases hc : coarseCond D i0
    · rw [if_pos (show D (i0 - 1) ≤ D (i0 - 2) ∧ D (i0 - 1) ≤ D i0 from hc)]
      constructor
      · intro h
        exact Option.noConfusion h
      · intro h
        exact absurd hc (h i0 (le_refl _) (by omega))
    · rw [if_neg (show ¬(D (i0 - 1) ≤ D (i0 - 2) ∧ D (i0 - 1) ≤ D i0) from hc), ih (i0 + 1)]
      constructor
      · intro h j hj1 hj2
        rcases eq_or_lt_of_le hj1 with hj | hj
        · rw [hj] at hc
          exact hc
        · exact h j (by omega) (by omega)
      · intro h j hj1 hj2
        exact h j (by omega) (by omega)

lemma scanLoop_succ (s : ℕ → ℝ) (f k : ℕ) (a b : ℝ) :
    scanLoop s (f + 1) k a b =
      if 2 ≤ k ∧ b ≤ a ∧ b ≤ s k then some (k, b, s k) else scanLoop s f (k + 1) b (s k) := rfl

lemma scanLoop_shift (s : ℕ → ℝ) (f : ℕ) (a b : ℝ) :
    scanLoop s (f + 2) 0 a b = scanLoop s f 2 (s 0) (s 1) := by
  have h1 : f + 2 = (f + 1) + 1 := by omega
  rw [h1, scanLoop_succ, if_neg (by rintro ⟨hc, -⟩; omega), scanLoop_succ,
    if_neg (by rintro ⟨hc, -⟩; omega)]

lemma scanLoop_some (s : ℕ → ℝ) :
    ∀ (f k k' : ℕ) (c d : ℝ), 2 ≤ k →
      (scanLoop s f k (s (k - 2)) (s (k - 1)) = some (k', c, d) ↔
        (k ≤ k' ∧ k' < k + f ∧ scanCond s k' ∧
          (∀ j, k ≤ j → j < k' → ¬ scanCond s j) ∧ c = s (k' - 1) ∧ d = s k')) := by
  intro f
  induction f with
  | zero =>
    intro k k' c d hk
    constructor
    · intro h
      exact Option.noConfusion h
    · rintro ⟨h1, h2, -⟩
      omega
  | succ f ih =>
    intro k k' c d hk
    rw [scanLoop_succ]
    by_cases hc : scanCond s k
    · rw [if_pos (show 2 ≤ k ∧ s (k - 1) ≤ s (k - 2) ∧ s (k - 1) ≤ s k from ⟨hk, hc.1, hc.2⟩)]
      constructor
      · intro h
        have h' := Option.some.inj h
        have hkk : k = k' := congrArg Prod.fst h'
        have hcc : s (k - 1) = c := congrArg (fun p => p.2.1) h'
        have hdd : s k = d := congrArg (fun p => p.2.2) h'
        subst hkk
        exact ⟨le_refl _, by omega, hc,
          fun j hj1 hj2 => absurd hj1 (by omega), hcc.symm, hdd.symm⟩
      · rintro ⟨h1, h2, hck', hfirst, hcc, hdd⟩
        have hkk : k = k' := by
          rcases eq_or_lt_of_le h1 with hj | hj
          · exact hj
          · exact absurd hc (hfirst k (le_refl _) hj)
        subst hkk
        rw [hcc, hdd]
    · rw [if_neg (show ¬(2 ≤ k ∧ s (k - 1) ≤ s (k - 2) ∧ s (k - 1) ≤ s k) by
        rintro ⟨-, hx, hy⟩; exact hc ⟨hx, hy⟩)]
      have e1 : s (k - 1) = s (k + 1 - 2) := rfl
      have e2 : s k = s (k + 1 - 1) := rfl
      rw [e1, e2, ih (k + 1) k' c d (by omega)]
      constructor
      · rintro ⟨h1, h2, hck', hfirst, hcc, hdd⟩
        refine ⟨by omega, by omega, hck', fun j hj1 hj2 => ?_, hcc, hdd⟩
        rcases eq_or_lt_of_le hj1 with hj | hj
        · rw [hj] at hc
          exact hc
        · exact hfirst j (by omega) hj2
      · rintro ⟨h1, h2, hck', hfirst, hcc, hdd⟩
        have hne : k ≠ k' := by
          intro hcontra
          rw [hcontra] at hc
          exact hc hck'
        exact ⟨by omega, by omega, hck',
          fun j hj1 hj2 => hfirst j (by omega) hj2, hcc, hdd⟩

lemma scanLoop_none (s : ℕ → ℝ) :
    ∀ (f k : ℕ), 2 ≤ k →
      (scanLoop s f k (s (k - 2)) (s (k - 1)) = none ↔
        ∀ j, k ≤ j → j < k + f → ¬ scanCond s j) := by
  intro f
  induction f with
  | zero =>
    intro k hk
    constructor
    · intro _ j hj1 hj2
      omega
    · intro _
      rfl
  | succ f ih =>
    intro k hk
    rw [scanLoop_succ]
    by_cases hc : scanCond s k
    · rw [if_pos (show 2 ≤ k ∧ s (k - 1) ≤ s (k - 2) ∧ s (k - 1) ≤ s k from ⟨hk, hc.1, hc.2⟩)]
      constructor
      · intro h
        exact Option.noConfusion h
      · intro h
        exact absurd hc (h k (le_refl _) (by omega))
    · rw [if_neg (show ¬(2 ≤ k ∧ s (k - 1) ≤ s (k - 2) ∧ s (k - 1) ≤ s k) by
        rintro ⟨-, hx, hy⟩; exact hc ⟨hx, hy⟩)]
      have e1 : s (k - 1) = s (k + 1 - 2) := rfl
      have e2 : s k = s (k + 1 - 1) := rfl
      rw [e1, e2, ih (k + 1) (by omega)]
      constructor
      · intro h j hj1 hj2
        rcases eq_or_lt_of_le hj1 with hj | hj
        · rw [hj] at hc
          exact hc
        · exact h j (by omega) (by omega)
      · intro h j hj1 hj2
        exact h j (by omega) (by omega)

lemma firstCoarse_unique {D : ℕ → ℝ} {i i' : ℕ}
    (h : firstCoarse D i) (h' : firstCoarse D i') : i = i' := by
  by_contra hne
  rcases Nat.lt_or_ge i i' with hlt | hge
  · exact h'.2.2.2 i h.1 hlt h.2.2.1
  · exact h.2.2.2 i' h'.1 (by omega) h'.2.2.1

lemma firstScan_unique {s : ℕ → ℝ} {k k' : ℕ}
    (h : firstScan s k) (h' : firstScan s k') : k = k' := by
  by_contra hne
  rcases Nat.lt_or_ge k k' with hlt | hge
  · exact h'.2.2.2 k h.1 hlt h.2.2.1
  · exact h.2.2.2 k' h'.1 (by omega) h'.2.2.1

lemma medCount_eq : medCount = 241 := by
  rw [medCount, nMed, per, nptsR,
    show (2880 * (1:ℝ) / 12 + 1) = ((241 : ℤ) : ℝ) by norm_num, Int.floor_intCast]
  rfl

lemma occPhase3_cases (oc1 oc2 : occt) (di : ℝ) (occ0 : obj3) (fuel j : ℕ) (d2f : ℝ) :
    occPhase3 oc1 oc2 di occ0 fuel j d2f = OccResult.timeout ∨
      ∃ oc, occPhase3 oc1 oc2 di occ0 fuel j d2f = OccResult.done oc := by
  simp only [occPhase3]
  split
  · exact Or.inr ⟨_, rfl⟩
  · split
    · exact Or.inl rfl
    · split
      · exact Or.inl rfl
      · exact Or.inr ⟨_, rfl⟩

/-! ### Claim C2 -/

/-- C2: whenever the two contact-walking loops terminate (result is not the
embedding's `timeout` marker), `occult` returns one of the two distinct
refinement-failure errors ("bad 1" / "bad 2") if and only if a coarse local
minimum of the separation curve was found over the 14 samples but either the
241-sub-step medium scan of the quadratic interpolants finds no interior
3-point minimum, or — the medium minimum having passed the 50″ margin — the
fine scan after true re-sampling finds none; in every other case `occult`
returns `nil`. -/
theorem occult_error_iff (o1p o2p : ℕ → obj1) (rs : ℝ → obj1 × obj1) (occ0 : obj3)
    (fuel : ℕ) (hnt : occult o1p o2p rs occ0 fuel ≠ OccResult.timeout) :
    (occult o1p o2p rs occ0 fuel = OccResult.bad1 ∨
      occult o1p o2p rs occ0 fuel = OccResult.bad2) ↔ errPred o1p o2p rs := by
  rcases hc : coarseLoop (Dseq o1p o2p) 12 2 with _ | i
  · have hres : occult o1p o2p rs occ0 fuel = OccResult.done (sentinel occ0) := by
      simp only [occult, hc]
    rw [hres]
    constructor
    · rintro (h | h) <;> exact OccResult.noConfusion h
    · rintro ⟨i, hfc, -⟩
      have hle := hfc.2.1
      have hnone := (coarseLoop_none (Dseq o1p o2p) 12 2).mp hc i hfc.1 (by omega)
      exact absurd hfc.2.2.1 hnone
  · obtain ⟨h2i, hi14, hcondi, hfirsti⟩ := (coarseLoop_some (Dseq o1p o2p) 12 2 i).mp hc
    have hfci : firstCoarse (Dseq o1p o2p) i := ⟨h2i, by omega, hcondi, hfirsti⟩
    rcases hm : scanLoop (medSeqAt o1p o2p i) medCount 0 (Dseq o1p o2p (i - 1))
        (Dseq o1p o2p i) with _ | ⟨k, d2m, d3m⟩
    · have hres : occult o1p o2p rs occ0 fuel = OccResult.bad1 := by
        simp only [occult, hc, hm]
      have hm' : scanLoop (medSeqAt o1p o2p i) 239 2 (medSeqAt o1p o2p i 0)
          (medSeqAt o1p o2p i 1) = none := by
        rw [medCount_eq, show (241 : ℕ) = 239 + 2 by norm_num, scanLoop_shift] at hm
        exact hm
      have hnone := (scanLoop_none (medSeqAt o1p o2p i) 239 2 (le_refl 2)).mp hm'
      have hnofound : ¬ scanFound (medSeqAt o1p o2p i) := by
        rintro ⟨k, hk2, hk240, hck⟩
        exact hnone k hk2 (by omega) hck
      rw [hres]
      constructor
      · intro _
        exact ⟨i, hfci, Or.inl hnofound⟩
      · intro _
        exact Or.inl rfl
    · have hm2 : scanLoop (medSeqAt o1p o2p i) 239 2 (medSeqAt o1p o2p i 0)
          (medSeqAt o1p o2p i 1) = some (k, d2m, d3m) := by
        rw [medCount_eq, show (241 : ℕ) = 239 + 2 by norm_num, scanLoop_shift] at hm
        exact hm
      obtain ⟨hk2, hk241, hsck, hfirstk, hd2m, hd3m⟩ :=
        (scanLoop_some (medSeqAt o1p o2p i) 239 2 k d2m d3m (le_refl 2)).mp hm2
      have hfsk : firstScan (medSeqAt o1p o2p i) k := ⟨hk2, by omega, hsck, hfirstk⟩
      have hfoundm : scanFound (medSeqAt o1p o2p i) := ⟨k, hk2, by omega, hsck⟩
      have hres : occult o1p o2p rs occ0 fuel = occPhase2 o1p o2p rs occ0 fuel i k d2m d3m := by
        simp only [occult, hc, hm]
      by_cases hmarg : marginExceeded o1p o2p i k
      · have hph : occPhase2 o1p o2p rs occ0 fuel i k d2m d3m =
            OccResult.done (sentinel occ0) := by
          unfold occPhase2
          rw [if_pos (show (interp (ocAt o1p i) ((k : ℝ) * dxMed)).semi2 +
            (interp (ocAt o2p i) ((k : ℝ) * dxMed)).semi2 + 50 < d2m by
              rw [hd2m]; exact hmarg)]
        rw [hres, hph]
        constructor
        · rintro (h | h) <;> exact OccResult.noConfusion h
        · rintro ⟨i', hfc', hdisj⟩
          have hii := firstCoarse_unique hfc' hfci
          subst hii
          rcases hdisj with hnf | ⟨k', hfs', hnm, -⟩
          · exact absurd hfoundm hnf
          · have hkk := firstScan_unique hfs' hfsk
            subst hkk
            exact absurd hmarg hnm
      · have hmargd2 : ¬ ((interp (ocAt o1p i) ((k : ℝ) * dxMed)).semi2 +
            (interp (ocAt o2p i) ((k : ℝ) * dxMed)).semi2 + 50 < d2m) := by
          rw [hd2m]
          exact hmarg
        rcases hf : scanLoop (fdSeqAt rs i k) 241 0 d2m d3m with _ | ⟨j, d2f, d3f⟩
        · have hph : occPhase2 o1p o2p rs occ0 fuel i k d2m d3m = OccResult.bad2 := by
            unfold occPhase2
            rw [if_neg hmargd2, hf]
          have hf' : scanLoop (fdSeqAt rs i k) 239 2 (fdSeqAt rs i k 0)
              (fdSeqAt rs i k 1) = none := by
            rw [show (241 : ℕ) = 239 + 2 by norm_num, scanLoop_shift] at hf
            exact hf
          have hnonef := (scanLoop_none (fdSeqAt rs i k) 239 2 (le_refl 2)).mp hf'
          have hnofoundf : ¬ scanFound (fdSeqAt rs i k) := by
            rintro ⟨j, hj2, hj240, hcj⟩
            exact hnonef j hj2 (by omega) hcj
          rw [hres, hph]
          constructor
          · intro _
            exact ⟨i, hfci, Or.inr ⟨k, hfsk, hmarg, hnofoundf⟩⟩
          · intro _
            exact Or.inr rfl
        · have hph : occPhase2 o1p o2p rs occ0 fuel i k d2m d3m =
              occPhase3 (foAt rs i k).1 (foAt rs i k).2 (diAt i k) occ0 fuel j d2f := by
            unfold occPhase2
            rw [if_neg hmargd2, hf]
          have hf2 : scanLoop (fdSeqAt rs i k) 239 2 (fdSeqAt rs i k 0)
              (fdSeqAt rs i k 1) = some (j, d2f, d3f) := by
            rw [show (241 : ℕ) = 239 + 2 by norm_num, scanLoop_shift] at hf
            exact hf
          obtain ⟨hj2, hj241, hscj, -, -, -⟩ :=
            (scanLoop_some (fdSeqAt rs i k) 239 2 j d2f d3f (le_refl 2)).mp hf2
          have hfoundf : scanFound (fdSeqAt rs i k) := ⟨j, hj2, by omega, hscj⟩
          rcases occPhase3_cases (foAt rs i k).1 (foAt rs i k).2 (diAt i k) occ0 fuel j d2f
            with ht | ⟨oc, hdone⟩
          · rw [hres, hph] at hnt
            exact absurd ht hnt
          · rw [hres, hph, hdone]
            constructor
            · rintro (h | h) <;> exact OccResult.noConfusion h
            · rintro ⟨i', hfc', hdisj⟩
              have hii := firstCoarse_unique hfc' hfci
              subst hii
              rcases hdisj with hnf | ⟨k', hfs', -, hnff⟩
              · exact absurd hfoundm hnf
              · have hkk := firstScan_unique hfs' hfsk
                subst hkk
                exact absurd hfoundf hnff

/-! ### Claim C3 -/

/-- C3: `occult` begins by resetting all five contact times to the `-100`
sentinel, and it reports no event — returns `nil` with all five contact
times still `-100` — whenever either no coarse 3-point minimum exists over
the 14 samples, or the medium-pass minimum separation exceeds the sum of the
two interpolated semidiameters plus the 50″ margin. -/
theorem occult_no_event (o1p o2p : ℕ → obj1) (rs : ℝ → obj1 × obj1) (occ0 : obj3)
    (fuel : ℕ) :
    ((∀ i, 2 ≤ i → i ≤ 13 → ¬ coarseCond (Dseq o1p o2p) i) →
      occult o1p o2p rs occ0 fuel = OccResult.done (sentinel occ0)) ∧
    (∀ i k, firstCoarse (Dseq o1p o2p) i → firstScan (medSeqAt o1p o2p i) k →
      marginExceeded o1p o2p i k →
      occult o1p o2p rs occ0 fuel = OccResult.done (sentinel occ0)) ∧
    (sentinel occ0).t1 = -100 ∧ (sentinel occ0).t2 = -100 ∧ (sentinel occ0).t3 = -100 ∧
    (sentinel occ0).t4 = -100 ∧ (sentinel occ0).t5 = -100 := by
  refine ⟨?_, ?_, rfl, rfl, rfl, rfl, rfl⟩
  · intro h
    have hc : coarseLoop (Dseq o1p o2p) 12 2 = none :=
      (coarseLoop_none (Dseq o1p o2p) 12 2).mpr (fun j hj1 hj2 => h j hj1 (by omega))
    simp only [occult, hc]
  · intro i k hfc hfs hmarg
    rcases hc : coarseLoop (Dseq o1p o2p) 12 2 with _ | i''
    · have hle := hfc.2.1
      have hnone := (coarseLoop_none (Dseq o1p o2p) 12 2).mp hc i hfc.1 (by omega)
      exact absurd hfc.2.2.1 hnone
    · obtain ⟨h2i, hi14, hcondi, hfirsti⟩ := (coarseLoop_some (Dseq o1p o2p) 12 2 i'').mp hc
      have hii : i'' = i := firstCoarse_unique ⟨h2i, by omega, hcondi, hfirsti⟩ hfc
      subst hii
      rcases hm : scanLoop (medSeqAt o1p o2p i'') medCount 0 (Dseq o1p o2p (i'' - 1))
          (Dseq o1p o2p i'') with _ | ⟨k'', d2m, d3m⟩
      · have hm' : scanLoop (medSeqAt o1p o2p i'') 239 2 (medSeqAt o1p o2p i'' 0)
            (medSeqAt o1p o2p i'' 1) = none := by
          rw [medCount_eq, show (241 : ℕ) = 239 + 2 by norm_num, scanLoop_shift] at hm
          exact hm
        have hnone := (scanLoop_none (medSeqAt o1p o2p i'') 239 2 (le_refl 2)).mp hm'
        have hk240 := hfs.2.1
        exact absurd hfs.2.2.1 (hnone k hfs.1 (by omega))
      · have hm2 : scanLoop (medSeqAt o1p o2p i'') 239 2 (medSeqAt o1p o2p i'' 0)
            (medSeqAt o1p o2p i'' 1) = some (k'', d2m, d3m) := by
          rw [medCount_eq, show (241 : ℕ) = 239 + 2 by norm_num, scanLoop_shift] at hm
          exact hm
        obtain ⟨hk2, hk241, hsck, hfirstk, hd2m, hd3m⟩ :=
          (scanLoop_some (medSeqAt o1p o2p i'') 239 2 k'' d2m d3m (le_refl 2)).mp hm2
        have hkk : k'' = k := firstScan_unique ⟨hk2, by omega, hsck, hfirstk⟩ hfs
        subst hkk
        simp only [occult, hc, hm]
        unfold occPhase2
        rw [if_pos (show (interp (ocAt o1p i'') ((k'' : ℝ) * dxMed)).semi2 +
          (interp (ocAt o2p i'') ((k'' : ℝ) * dxMed)).semi2 + 50 < d2m by
            rw [hd2m]; exact hmarg)]

/-! #### Concrete witness input for the occultation theorems

Two coincident bodies (all samples at the origin of the sphere) with
`semi2 = -100`: the coarse and medium scans break immediately at their first
admissible index, and the medium margin check `d2 > semi₁+semi₂+50` fires
(`0 > -150`), so `occult` returns `nil` with the sentinel record. -/

/-- A sample at the origin with semidiameter `-100`. -/
def pw : obj1 := ⟨0, 0, -100, 0, 0, 0⟩

/-- Both bodies' sample arrays: constant `pw`. -/
def pwFun : ℕ → obj1 := fun _ => pw

/-- The re-sampling oracle: constant `pw` (never consulted on this input). -/
def rsEx : ℝ → obj1 × obj1 := fun _ => (pw, pw)

/-- An all-zero previous occultation record. -/
def occ0Ex : obj3 := ⟨0, 0, 0, 0, 0, 0, 0, 0, 0, 0⟩

lemma atan2_zero_one : atan2 0 1 = 0 := by
  have h : (⟨1, 0⟩ : ℂ) = 1 := by
    apply Complex.ext
    · simp
    · simp
  rw [atan2, h, Complex.arg_one]

lemma pinorm_zero : pinorm 0 = 0 :=
  pinorm_id 0 (by linarith [Real.pi_pos]) (le_of_lt Real.pi_pos)

lemma dist_eq_zero_aux (o1 o2 : obj1) (h1 : o1.ra = 0) (h2 : o1.decl2 = 0)
    (h3 : o2.ra = 0) (h4 : o2.decl2 = 0) : dist o1 o2 = 0 := by
  simp only [dist, h1, h2, h3, h4]
  norm_num [Real.sin_zero, Real.cos_zero]
  rw [pyth]
  norm_num [Real.sqrt_zero, atan2_zero_one]

lemma Dseq_pw (n : ℕ) : Dseq pwFun pwFun n = 0 :=
  dist_eq_zero_aux _ _ rfl rfl rfl rfl

lemma interp_pw (x : ℝ) : interp (set3pt pw pw pw) x = pw := by
  simp only [interp, setpt, set3pt, pw]
  norm_num [obj1.mk.injEq, pinorm_zero]

lemma interp_ocAt_pw (i : ℕ) (x : ℝ) : interp (ocAt pwFun i) x = pw :=
  interp_pw x

lemma medSeqAt_pw (i k : ℕ) : medSeqAt pwFun pwFun i k = 0 := by
  simp only [medSeqAt, interp_ocAt_pw]
  exact dist_eq_zero_aux _ _ rfl rfl rfl rfl

lemma coarseLoop_pw : coarseLoop (Dseq pwFun pwFun) 12 2 = some 2 := by
  have he : coarseLoop (Dseq pwFun pwFun) 12 2 =
      if Dseq pwFun pwFun (2 - 1) ≤ Dseq pwFun pwFun (2 - 2) ∧
        Dseq pwFun pwFun (2 - 1) ≤ Dseq pwFun pwFun 2 then some 2
      else coarseLoop (Dseq pwFun pwFun) 11 3 := rfl
  rw [he, if_pos (by simp only [Dseq_pw]; exact ⟨le_refl 0, le_refl 0⟩)]

lemma scanMed_pw : scanLoop (medSeqAt pwFun pwFun 2) medCount 0
    (Dseq pwFun pwFun (2 - 1)) (Dseq pwFun pwFun 2) =
    some (2, medSeqAt pwFun pwFun 2 1, medSeqAt pwFun pwFun 2 2) := by
  rw [medCount_eq, show (241 : ℕ) = 239 + 2 by norm_num, scanLoop_shift]
  refine (scanLoop_some (medSeqAt pwFun pwFun 2) 239 2 2
    (medSeqAt pwFun pwFun 2 1) (medSeqAt pwFun pwFun 2 2) (le_refl 2)).mpr ?_
  refine ⟨le_refl 2, by omega, ?_, fun j hj1 hj2 => absurd hj1 (by omega), rfl, rfl⟩
  constructor
  · simp only [medSeqAt_pw]
    exact le_refl 0
  · simp only [medSeqAt_pw]
    exact le_refl 0

lemma occult_pw_eval (fuel : ℕ) :
    occult pwFun pwFun rsEx occ0Ex fuel = OccResult.done (sentinel occ0Ex) := by
  simp only [occult, coarseLoop_pw, scanMed_pw]
  unfold occPhase2
  rw [if_pos]
  have hs1 : (interp (ocAt pwFun 2) (((2 : ℕ) : ℝ) * dxMed)).semi2 = -100 := by
    rw [interp_ocAt_pw]
    rfl
  rw [hs1, medSeqAt_pw]
  norm_num

/-- Witness for C2: at the coincident-bodies input the result is `nil` (the
margin check fires), and correspondingly the refinement-failure predicate is
false; the equivalence holds as the theorem states. -/
theorem occult_error_iff_witness :
    (occult pwFun pwFun rsEx occ0Ex 0 = OccResult.bad1 ∨
      occult pwFun pwFun rsEx occ0Ex 0 = OccResult.bad2) ↔ errPred pwFun pwFun rsEx :=
  occult_error_iff pwFun pwFun rsEx occ0Ex 0
    (by rw [occult_pw_eval]; exact fun h => OccResult.noConfusion h)

/-- Witness for C3: at the coincident-bodies input the first coarse minimum is
at `i = 2`, the first medium minimum at `k = 2`, the margin is exceeded
(`0 > -100 + -100 + 50`), and `occult` returns `nil` with all contact times
at the `-100` sentinel. -/
theorem occult_no_event_witness :
    occult pwFun pwFun rsEx occ0Ex 5 = OccResult.done (sentinel occ0Ex) := by
  refine (occult_no_event pwFun pwFun rsEx occ0Ex 5).2.1 2 2 ?_ ?_ ?_
  · refine ⟨le_refl 2, by omega, ?_, fun j hj1 hj2 => absurd hj1 (by omega)⟩
    constructor
    · simp only [Dseq_pw]
      exact le_refl 0
    · simp only [Dseq_pw]
      exact le_refl 0
  · refine ⟨le_refl 2, by omega, ?_, fun j hj1 hj2 => absurd hj1 (by omega)⟩
    constructor
    · simp only [medSeqAt_pw]
      exact le_refl 0
    · simp only [medSeqAt_pw]
      exact le_refl 0
  · rw [marginExceeded]
    have hs1 : (interp (ocAt pwFun 2) (((2 : ℕ) : ℝ) * dxMed)).semi2 = -100 := by
      rw [interp_ocAt_pw]
      rfl
    rw [hs1, medSeqAt_pw]
    norm_num

end Astro
